import Mathlib

/-!
Verification of the FIFO holdings / cost-basis engine of the Stock-App
repository (`appsail-nodejs/controllers/stocksController.js`, plus the
`StockDetailModal` transaction table of the React frontend).

The JavaScript source is shallowly embedded below: JS numbers are modelled
as rationals (`Rat`), JS dates by their `getTime` value (`Int`, with a
missing/blank date modelled as `Option.none`), and the stable JS
`Array.prototype.sort` by a stable insertion sort driven by the boolean
relation `cmp a b <= 0` of the corresponding comparator.

The embedded pieces are:
  * `fifoProcess`     - the "SINGLE FIFO ENGINE" helper (used by the
                        weighted-average-cost report),
  * `summaryStep` &c. - the inlined lot ledger of `getHoldingsSummary`,
  * `streamStepTxn`, `streamStepBonus` &c. - the inlined ledger of
                        `getStockTransactionHistory` (snapshot-stream mode),
  * `resolvePriceFrontend`, `frontendWap` &c. - the StockDetailModal table.
-/

namespace StockApp

/-- JS `s.toUpperCase()` (ASCII; list-based so that proofs can compute). -/
def jsToUpper (s : String) : String := ⟨s.data.map Char.toUpper⟩

/-- JS `s.trim()` (whitespace at both ends; list-based). -/
def jsTrim (s : String) : String :=
  ⟨((s.data.dropWhile Char.isWhitespace).reverse.dropWhile Char.isWhitespace).reverse⟩

/-- JS `String(x).toUpperCase().trim()` as applied to transaction type codes. -/
def jsNorm (s : String) : String := jsTrim (jsToUpper s)

/-- JS `s.startsWith(t)` (list-based). -/
def jsStartsWith (s t : String) : Bool := t.data.isPrefixOf s.data

def jsIncludesAux (needle : List Char) : List Char → Bool
  | [] => needle.isPrefixOf []
  | c :: rest => needle.isPrefixOf (c :: rest) || jsIncludesAux needle rest

/-- JS `s.includes(t)` (list-based). -/
def jsIncludes (s t : String) : Bool := jsIncludesAux t.data s.data

/-- JS `s === t` on strings. -/
def jsStrEq (s t : String) : Bool := decide (s = t)

/-- `getTime` key of a possibly missing/blank date: JS
`d ? new Date(d).getTime() : 0`. -/
def jsDateKey : Option Int → Int
  | none => 0
  | some t => t

/-- `new Date("1900-01-01").getTime()`, the sentinel assigned to a bonus
record that has no ex-date. -/
def date1900 : Int := -2208988800000

/-- Stable insertion of `x` behind every element `y` of an already sorted
list with `le y x`; together with `jsSort` this reproduces the stable JS
`Array.prototype.sort` for a comparator whose `cmp a b <= 0` relation is
`le` (our comparators are all lexicographic key comparisons, for which the
stable result is uniquely determined). -/
def jsInsert (le : α → α → Bool) (x : α) : List α → List α
  | [] => [x]
  | y :: ys => if le y x then y :: jsInsert le x ys else x :: y :: ys

/-- Stable sort by the relation `le` (see `jsInsert`). -/
def jsSort (le : α → α → Bool) (l : List α) : List α :=
  l.foldl (fun acc x => jsInsert le x acc) []

/-- A raw transaction row, after the numeric coercions (`Number(x) || 0`)
performed at every ingestion site of the controller. -/
structure RawTxn where
  tranType : String
  qty : Rat
  netAmount : Rat
  rate : Rat
  netrate : Rat
  trandate : Option Int
  rowid : Int
deriving DecidableEq

/-- A raw bonus row: `exDate` is `none` when the ex-date is missing or
blank, `bonusShare` is `none` when `Number(BonusShare)` is `NaN`. -/
structure RawBonus where
  exDate : Option Int
  bonusShare : Option Rat
deriving DecidableEq

/-- Transaction comparator used by `fifoProcess` and by the pre-sort of
both inlined ledgers: by `trandate` (missing date sorting as 0), ties by
`rowid`. `txnLe a b` is `cmp a b <= 0`. -/
def txnLe (a b : RawTxn) : Bool :=
  decide (jsDateKey a.trandate < jsDateKey b.trandate) ||
    (decide (jsDateKey a.trandate = jsDateKey b.trandate) && decide (a.rowid ≤ b.rowid))

/-! ## fifoProcess - the "SINGLE FIFO ENGINE" helper

Embeds `function fifoProcess(transactions)` (stocksController.js lines
78-202), the engine behind `getWeightedAverageCost`. -/

/-- A buy lot of `fifoProcess`: `{ qty, unitCost }`. -/
structure Lot where
  qty : Rat
  unitCost : Rat
deriving DecidableEq

/-- The mutable accumulator of `fifoProcess`. -/
structure FifoState where
  buyQueue : List Lot
  buyQty : Rat
  sellQty : Rat
  buyValue : Rat
  sellValue : Rat
  sellCost : Rat
  availableQty : Rat
deriving DecidableEq

def FifoState.init : FifoState := ⟨[], 0, 0, 0, 0, 0, 0⟩

/-- Transaction classification inside `fifoProcess` (lines 119-140):
first letter `B` means buy, first letter `S` means sell, otherwise the
sign of the quantity decides; a zero quantity row was already skipped. -/
inductive FifoClass where
  | buy
  | sell
  | skip
deriving DecidableEq

def classifyFifo (tranType : String) (qty : Rat) : FifoClass :=
  let type := jsNorm tranType
  if jsStartsWith type "B" then .buy
  else if jsStartsWith type "S" then .sell
  else if qty < 0 then .sell
  else if qty > 0 then .buy
  else .skip

/-- The sell loop of `fifoProcess` (lines 163-173): consume
`min(lot.qty, remaining)` from the front lot, accumulating the consumed
cost, removing the lot when it reaches zero. Returns the new queue, the
accumulated `sellCost` contribution, and the remaining (unconsumed)
quantity. -/
def consumeLots : List Lot → Rat → List Lot × Rat × Rat
  | [], remaining => ([], 0, remaining)
  | lot :: rest, remaining =>
    if remaining ≤ 0 then (lot :: rest, 0, remaining)
    else
      let consume := min lot.qty remaining
      if lot.qty - consume = 0 then
        let r := consumeLots rest (remaining - consume)
        (r.1, consume * lot.unitCost + r.2.1, r.2.2)
      else
        (⟨lot.qty - consume, lot.unitCost⟩ :: rest, consume * lot.unitCost, remaining - consume)

/-- One iteration of the `fifoProcess` main loop (lines 109-184). -/
def fifoStep (s : FifoState) (t : RawTxn) : FifoState :=
  let qty := t.qty
  let value := t.netAmount
  if qty = 0 then s
  else
    match classifyFifo t.tranType qty with
    | .skip => s
    | .buy =>
      let absQty := |qty|
      let absValue := |value|
      let unitCost := if absQty ≠ 0 then absValue / absQty else 0
      { s with
        buyQueue := s.buyQueue ++ [⟨absQty, unitCost⟩]
        buyQty := s.buyQty + absQty
        buyValue := s.buyValue + absValue
        availableQty := s.availableQty + absQty }
    | .sell =>
      let absQty := |qty|
      let absValue := |value|
      let remaining := min absQty s.availableQty
      let r := consumeLots s.buyQueue remaining
      { s with
        buyQueue := r.1
        sellQty := s.sellQty + absQty
        sellValue := s.sellValue + absValue
        sellCost := s.sellCost + r.2.1
        availableQty := s.availableQty - (remaining - r.2.2) }

def sumLotQty (q : List Lot) : Rat := (q.map (fun l => l.qty)).sum

def sumLotCost (q : List Lot) : Rat := (q.map (fun l => l.qty * l.unitCost)).sum

/-- The state after the whole `fifoProcess` loop (the input is first
sorted chronologically, lines 93-98). -/
def fifoRun (txns : List RawTxn) : FifoState :=
  (jsSort txnLe txns).foldl fifoStep FifoState.init

/-- The object returned by `fifoProcess` (lines 192-201). -/
structure FifoResult where
  holdingQty : Rat
  remainingCost : Rat
  avgCost : Rat
  profit : Rat
  buyQty : Rat
  sellQty : Rat
  buyValue : Rat
  sellValue : Rat
deriving DecidableEq

def fifoProcess (txns : List RawTxn) : FifoResult :=
  let s := fifoRun txns
  let holdingQty := sumLotQty s.buyQueue
  let remainingCost := sumLotCost s.buyQueue
  { holdingQty := holdingQty
    remainingCost := remainingCost
    avgCost := if holdingQty > 0 then remainingCost / holdingQty else 0
    profit := s.sellValue - s.sellCost
    buyQty := s.buyQty
    sellQty := s.sellQty
    buyValue := s.buyValue
    sellValue := s.sellValue }

/-! ## Snapshot-stream mode - `getStockTransactionHistory`

Embeds the inlined ledger of `exports.getStockTransactionHistory`
(stocksController.js lines 2342-3350): the classifiers at lines
2977-3004, the chronological merge at lines 3006-3062, and the event loop
at lines 3074-3287. -/

/-- The dividend code test used at lines 2985-2991 (and, identically, in
the summary-mode filter at lines 1982-1989 and the frontend filter).
Takes the already upper-cased, trimmed code. -/
def isDividendType (type : String) : Bool :=
  jsStrEq type "DIO" || jsStrEq type "DIVIDEND" || jsStrEq type "DIVIDEND REINVEST" ||
    jsStrEq type "DIVIDEND REINVESTMENT" || jsStrEq type "DIVIDEND RECEIVED" ||
    jsStartsWith type "DIVIDEND" || jsIncludes type "DIVIDEND"

/-- `isBuyTransaction` (lines 2978-2993). -/
def isBuyTransaction (tranType : String) : Bool :=
  if tranType = "" then false
  else
    let type := jsNorm tranType
    let isBuy := jsStartsWith type "B" || jsStrEq type "BUY" || jsStrEq type "PURCHASE" ||
      jsIncludes type "BUY"
    let isSQB := jsStrEq type "SQB"
    let other := jsStrEq type "OPI"
    (isBuy || isSQB || other) && !(isDividendType type)

/-- `isSellTransaction` (lines 2996-3004); note: no dividend exclusion. -/
def isSellTransaction (tranType : String) : Bool :=
  if tranType = "" then false
  else
    let type := jsNorm tranType
    let isSell := jsStartsWith type "S" || jsStrEq type "SELL" || jsStrEq type "SALE" ||
      jsIncludes type "SELL"
    let isSQS := jsStrEq type "SQS"
    let isOPO := jsStrEq type "OPO"
    let isNF := jsStrEq type "NF-" || jsStartsWith type "NF-"
    isSell || isSQS || isOPO || isNF

/-- The price fallback chain of the stream mode (lines 3077-3086):
`netrate` when nonzero (JS `Number(netrate) || ...` truthiness), else
`rate` when nonzero, else `|netAmount| / qty` when `qty > 0` and
`netAmount` nonzero, else the zero that fell through. -/
def resolvePriceStream (t : RawTxn) : Rat :=
  let qty := |t.qty|
  let price := t.netrate
  let price := if price = 0 then t.rate else price
  if price = 0 ∧ qty > 0 ∧ t.netAmount ≠ 0 then |t.netAmount| / qty else price

/-- A lot of the stream-mode queue: `{ quantity, buyPrice }`. -/
structure StreamLot where
  quantity : Rat
  buyPrice : Rat
deriving DecidableEq

/-- The stream-mode accumulator: the running `currentHoldings` counter and
the FIFO `buyQueue`. -/
structure StreamState where
  currentHoldings : Rat
  buyQueue : List StreamLot
deriving DecidableEq

def StreamState.init : StreamState := ⟨0, []⟩

def sumStQty (q : List StreamLot) : Rat := (q.map (fun l => l.quantity)).sum

def sumStCost (q : List StreamLot) : Rat := (q.map (fun l => l.quantity * l.buyPrice)).sum

/-- The SELL consumption loop of the stream mode (lines 3112-3132):
consume whole lots from the front while they fit, else shrink the front
lot; returns the new queue and the accumulated `sellCostBasis`. -/
def streamConsume : List StreamLot → Rat → List StreamLot × Rat
  | [], _ => ([], 0)
  | lot :: rest, remaining =>
    if remaining ≤ 0 then (lot :: rest, 0)
    else if lot.quantity ≤ remaining then
      let r := streamConsume rest (remaining - lot.quantity)
      (r.1, lot.quantity * lot.buyPrice + r.2)
    else
      (⟨lot.quantity - remaining, lot.buyPrice⟩ :: rest, remaining * lot.buyPrice)

/-- `averageCostOfHoldings` as computed after every event (lines 3161-3175
and 3268-3278): zero unless `currentHoldings > 0`, else `currentHoldings`
times the weighted average price of the lots in `buyQueue`. -/
def streamAvgCostOf (currentHoldings : Rat) (queue : List StreamLot) : Rat :=
  if currentHoldings > 0 then
    let totalCostBasis := sumStCost queue
    let holdingAfter := sumStQty queue
    let wap := if holdingAfter > 0 then totalCostBasis / holdingAfter else 0
    currentHoldings * wap
  else 0

/-- The per-row data attached to each emitted history row. -/
structure StreamSnap where
  profitLoss : Option Rat
  averageCostOfHoldings : Rat
  holdingAfter : Rat
deriving DecidableEq

/-- The transaction branch of the stream event loop (lines 3075-3184). -/
def streamStepTxn (s : StreamState) (t : RawTxn) : StreamState × StreamSnap :=
  let qty := |t.qty|
  let price := resolvePriceStream t
  let isBuy := isBuyTransaction t.tranType
  let isSell := isSellTransaction t.tranType
  if isBuy then
    if qty > 0 ∧ price > 0 then
      let s' : StreamState := ⟨s.currentHoldings + qty, s.buyQueue ++ [⟨qty, price⟩]⟩
      (s', ⟨none, streamAvgCostOf s'.currentHoldings s'.buyQueue, s'.currentHoldings⟩)
    else
      (s, ⟨none, streamAvgCostOf s.currentHoldings s.buyQueue, s.currentHoldings⟩)
  else if isSell then
    if qty > 0 ∧ price > 0 then
      let r := streamConsume s.buyQueue qty
      let s' : StreamState := ⟨s.currentHoldings - qty, r.1⟩
      (s', ⟨some (qty * price - r.2),
            streamAvgCostOf s'.currentHoldings s'.buyQueue, s'.currentHoldings⟩)
    else
      let s' : StreamState := ⟨s.currentHoldings - qty, s.buyQueue⟩
      (s', ⟨none, streamAvgCostOf s'.currentHoldings s'.buyQueue, s'.currentHoldings⟩)
  else
    (s, ⟨none, streamAvgCostOf s.currentHoldings s.buyQueue, s.currentHoldings⟩)

/-- `validBonusShare` (lines 3197-3205): `Number(BonusShare)` when numeric
and nonnegative, else 0. -/
def bonusReceived (b : RawBonus) : Rat :=
  match b.bonusShare with
  | none => 0
  | some v => if v ≥ 0 then v else 0

/-- The bonus branch of the stream event loop (lines 3185-3287). -/
def streamStepBonus (s : StreamState) (b : RawBonus) : StreamState × StreamSnap :=
  let received := bonusReceived b
  let holdings := s.currentHoldings + received
  let queue := if received > 0 then s.buyQueue ++ [⟨received, 0⟩] else s.buyQueue
  (⟨holdings, queue⟩, ⟨none, streamAvgCostOf holdings queue, holdings⟩)

/-- A merged event of the stream mode (`allEvents`, lines 3028-3046). -/
inductive StreamEvent where
  | txn (t : RawTxn)
  | bonus (b : RawBonus)
deriving DecidableEq

/-- The date key of a merged event: transactions use `trandate` (0 when
missing), bonuses their ex-date with the 1900-01-01 sentinel for a
missing/blank ex-date (line 3032). -/
def streamEventDate : StreamEvent → Int
  | .txn t => jsDateKey t.trandate
  | .bonus b =>
    match b.exDate with
    | some d => d
    | none => date1900

/-- Kind rank of the stream comparator (lines 3057-3060): transactions
before bonuses on the same date. -/
def streamRank : StreamEvent → Nat
  | .txn _ => 0
  | .bonus _ => 1

/-- `cmp a b <= 0` for the stream merge comparator (lines 3051-3062). -/
def streamLe (a b : StreamEvent) : Bool :=
  decide (streamEventDate a < streamEventDate b) ||
    (decide (streamEventDate a = streamEventDate b) && decide (streamRank a ≤ streamRank b))

/-- The merged, deterministically ordered event sequence of the stream
mode: transactions are pre-sorted by (date, rowid) (lines 3006-3015),
concatenated with the bonus events and sorted by (date, kind). -/
def streamMerge (txns : List RawTxn) (bonuses : List RawBonus) : List StreamEvent :=
  jsSort streamLe ((jsSort txnLe txns).map .txn ++ bonuses.map .bonus)

def streamStep (s : StreamState) : StreamEvent → StreamState × StreamSnap
  | .txn t => streamStepTxn s t
  | .bonus b => streamStepBonus s b

/-- Fold of the stream event loop, collecting the per-row snapshots. -/
def streamRun (events : List StreamEvent) : StreamState × List StreamSnap :=
  events.foldl
    (fun acc e =>
      let r := streamStep acc.1 e
      (r.1, acc.2 ++ [r.2]))
    (StreamState.init, [])

/-- The whole snapshot-stream computation for one (account, security). -/
def streamProcess (txns : List RawTxn) (bonuses : List RawBonus) :
    StreamState × List StreamSnap :=
  streamRun (streamMerge txns bonuses)

/-! ## Aggregate summary mode - `getHoldingsSummary`

Embeds the inlined ledger of `exports.getHoldingsSummary`
(stocksController.js lines 1626-2137): the bonus-index client filter at
lines 1797-1821, the combined event construction at lines 1977-2023 and
the lot fold at lines 2028-2092. -/

/-- A JS field value as it reaches the bonus ClientId check: the field can
be absent, `null`, a number, or a string (whose `Number(...)` parse is
`none` when `NaN`). -/
inductive JsField where
  | missing
  | nullv
  | num (n : Rat)
  | str (parsed : Option Rat)
deriving DecidableEq

/-- The ClientId admission test of the bonus index (lines 1797-1821): the
raw field is reduced to a numeric id or `null`, and the record is dropped
only when that id is non-null and differs from the requested client. -/
def bonusClientAccepted (field : JsField) (clientId : Rat) : Bool :=
  let bonusClientId : Option Rat :=
    match field with
    | .missing => none
    | .nullv => none
    | .num n => some n
    | .str parsed => parsed
  match bonusClientId with
  | none => true
  | some c => decide (c = clientId)

/-- A combined event of the summary mode (lines 1977-2015): a trade row
(type upper-cased and trimmed) or a synthetic `BONUS` row. -/
structure CombinedEvent where
  tranType : String
  qty : Rat
  netAmount : Rat
  rate : Rat
  netrate : Rat
  dateKey : Int
  rowid : Int
  isBonus : Bool
deriving DecidableEq

/-- Buy-type test of the summary fold (lines 2030-2047). -/
def summaryIsBuyType (type : String) : Bool :=
  (jsStartsWith type "B" || jsStrEq type "BUY" || jsStrEq type "PURCHASE" ||
      jsIncludes type "BUY") ||
    jsStrEq type "SQB" || jsStrEq type "OPI"

/-- Sell-type test of the summary fold (lines 2035-2048). -/
def summaryIsSellType (type : String) : Bool :=
  (jsStartsWith type "S" || jsStrEq type "SELL" || jsStrEq type "SALE" ||
      jsIncludes type "SELL") ||
    jsStrEq type "SQS" || jsStrEq type "OPO" ||
    (jsStrEq type "NF-" || jsStartsWith type "NF-")

/-- The price fallback chain of the summary mode (lines 2053-2062):
`netrate` only when strictly positive, else `rate` (whatever its sign),
else `|netAmount| / qty` when `netAmount` is nonzero (`qty` is the
already-absolute quantity, nonzero at the call site). -/
def resolvePriceSummary (netrate rate netAmount qty : Rat) : Rat :=
  let price := if netrate > 0 then netrate else rate
  if price = 0 ∧ netAmount ≠ 0 then |netAmount| / qty else price

/-- A summary-mode lot: `{ qty, price }`. -/
structure SumLot where
  qty : Rat
  price : Rat
deriving DecidableEq

def sumSQty (q : List SumLot) : Rat := (q.map (fun l => l.qty)).sum

def sumSCost (q : List SumLot) : Rat := (q.map (fun l => l.qty * l.price)).sum

/-- The SELL consumption loop of the summary fold (lines 2072-2082); no
cost is tracked here. -/
def summaryConsume : List SumLot → Rat → List SumLot
  | [], _ => []
  | lot :: rest, remaining =>
    if remaining ≤ 0 then lot :: rest
    else if lot.qty ≤ remaining then summaryConsume rest (remaining - lot.qty)
    else ⟨lot.qty - remaining, lot.price⟩ :: rest

/-- One iteration of the summary lot fold (lines 2028-2084). -/
def summaryStep (lotQueue : List SumLot) (e : CombinedEvent) : List SumLot :=
  let tranType := e.tranType
  let isBuyT := summaryIsBuyType tranType
  let isSellT := summaryIsSellType tranType
  let isBonus := jsStrEq tranType "BONUS" || e.isBonus
  let qty := |e.qty|
  if qty = 0 then lotQueue
  else
    let price := resolvePriceSummary e.netrate e.rate e.netAmount qty
    if isBuyT && !isBonus then lotQueue ++ [⟨qty, price⟩]
    else if isBonus then
      if qty > 0 then lotQueue ++ [⟨qty, 0⟩] else lotQueue
    else if isSellT then summaryConsume lotQueue qty
    else lotQueue

/-- The per-transaction event constructor of the summary mode (lines
1980-2002): dividend rows are dropped, others keep their fields with the
type upper-cased and trimmed. -/
def normalizeTxnForSummary? (t : RawTxn) : Option CombinedEvent :=
  let rawType := jsNorm t.tranType
  if isDividendType rawType then none
  else some ⟨rawType, t.qty, t.netAmount, t.rate, t.netrate, jsDateKey t.trandate, t.rowid, false⟩

/-- The date a bonus record carries into the summary merge (lines
1851-1852): its ex-date, or the 1900-01-01 sentinel when missing/blank. -/
def summaryBonusDate (b : RawBonus) : Int :=
  match b.exDate with
  | some d => d
  | none => date1900

/-- The synthetic `BONUS` event of the summary mode (lines 2005-2015):
zero amount and rate, and `rowid := 1000000 + idx` as kind tie-break. -/
def summaryBonusEvent (idx : Nat) (b : RawBonus) : CombinedEvent :=
  ⟨"BONUS", (b.bonusShare.getD 0), 0, 0, 0, summaryBonusDate b, 1000000 + (idx : Int), true⟩

/-- `cmp a b <= 0` for the combined-event comparator (lines 2018-2023):
by date, ties by rowid. -/
def combLe (a b : CombinedEvent) : Bool :=
  decide (a.dateKey < b.dateKey) ||
    (decide (a.dateKey = b.dateKey) && decide (a.rowid ≤ b.rowid))

/-- The combined event list of the summary mode before its final sort:
chronologically pre-sorted transactions (lines 1964-1969) with dividends
dropped, followed by the bonus events (zero-quantity bonus rows were
dropped when the index was built, line 1847). -/
def summaryEvents (txns : List RawTxn) (bonuses : List RawBonus) : List CombinedEvent :=
  let txEvents := (jsSort txnLe txns).filterMap normalizeTxnForSummary?
  let kept := bonuses.filter (fun b => b.bonusShare.getD 0 ≠ 0)
  txEvents ++ (kept.enum.map fun p => summaryBonusEvent p.1 p.2)

/-- The summary-mode lot queue for one (account, security). -/
def summaryRun (txns : List RawTxn) (bonuses : List RawBonus) : List SumLot :=
  (jsSort combLe (summaryEvents txns bonuses)).foldl summaryStep []

/-- `currentHolding` of the summary output (line 2086). -/
def summaryCurrentHolding (txns : List RawTxn) (bonuses : List RawBonus) : Rat :=
  sumSQty (summaryRun txns bonuses)

/-! ## Frontend - `StockDetailModal` transaction table

Embeds the per-row computations of the React `StockDetailModal` table
(`src/unnamed/part_002`, lines 345-418). -/

/-- The frontend price chain (part_002 lines 364-371): `netrate` only if
strictly positive, else `rate`, else `|netAmount| / |qty|` when both
`netAmount` and `qty` are nonzero. -/
def resolvePriceFrontend (netrate rate netAmount qty : Rat) : Rat :=
  let price := if netrate > 0 then netrate else rate
  if price = 0 ∧ netAmount ≠ 0 ∧ qty ≠ 0 then |netAmount| / |qty| else price

/-- `weightedAvgAfter` of the frontend table (part_002 line 410), computed
from the lot queue alone. -/
def frontendWap (q : List SumLot) : Rat :=
  if sumSQty q > 0 then sumSCost q / sumSQty q else 0

/-- `averageCostOfHoldings` of the frontend table (part_002 line 413):
holding (the lot-queue total) times the weighted average price. -/
def frontendAvgCostOfHoldings (q : List SumLot) : Rat :=
  sumSQty q * frontendWap q

/-! ## Example inputs used by the concrete theorems -/

/-- A buy of 5 shares whose rate, net rate and net amount are all 0, so the
resolved price is 0. -/
def exBuyZeroPrice : RawTxn := ⟨"BUY", 5, 0, 0, 0, some 100, 1⟩

/-- A sell of 50 shares at net rate 10 with no prior holdings. -/
def exSell50 : RawTxn := ⟨"SELL", 50, 500, 0, 10, some 100, 1⟩

/-- Spec section 8 FIFO example: Buy 100@10, Buy 50@12, Sell 120@15. -/
def exFifoB1 : RawTxn := ⟨"BUY", 100, 1000, 0, 0, some 1, 1⟩

def exFifoB2 : RawTxn := ⟨"BUY", 50, 600, 0, 0, some 2, 2⟩

def exFifoS : RawTxn := ⟨"SELL", 120, 1800, 0, 0, some 3, 3⟩

/-- Spec section 8 oversell example: holding 30, sell 50. -/
def exOverB : RawTxn := ⟨"BUY", 30, 300, 0, 0, some 1, 1⟩

def exOverS : RawTxn := ⟨"SELL", 50, 500, 0, 0, some 2, 2⟩

/-- A transaction whose type code is recognized by none of the
classifiers, with a positive quantity. -/
def exXYZ : RawTxn := ⟨"XYZ", 5, 50, 0, 0, none, 1⟩

/-- Buy 10 shares at net rate 5. -/
def exB10 : RawTxn := ⟨"BUY", 10, 50, 0, 5, some 1, 1⟩

/-- A sell of 4 shares with rate, net rate and net amount all 0 (resolved
price 0). -/
def exS4zero : RawTxn := ⟨"SELL", 4, 0, 0, 0, some 2, 2⟩

/-- A row with a negative net rate and a positive rate. -/
def exNegNet : RawTxn := ⟨"BUY", 1, 10, 7, -5, some 1, 1⟩

/-- A transaction whose datastore rowid is at least 1000000. -/
def txBig : RawTxn := ⟨"BUY", 1, 10, 10, 10, some 100, 2000000⟩

/-- A bonus carrying the same date as `txBig`. -/
def bnSame : RawBonus := ⟨some 100, some 3⟩

/-- A bonus with no ex-date. -/
def bnNoDate : RawBonus := ⟨none, some 3⟩

/-- Two summary-mode events on the same date. -/
def cEv1 : CombinedEvent := ⟨"BUY", 1, 10, 10, 10, 100, 7, false⟩

def cEv2 : CombinedEvent := ⟨"BONUS", 3, 0, 0, 0, 100, 1000000, true⟩

/-- The loop invariant of `fifoProcess`: all lots are nonnegative and
`availableQty` tracks the total quantity in `buyQueue`. -/
def FifoInv (s : FifoState) : Prop :=
  (∀ l ∈ s.buyQueue, 0 ≤ l.qty) ∧ s.availableQty = sumLotQty s.buyQueue

/-! ## Helper lemmas -/

theorem sumLotQty_nil : sumLotQty [] = 0 := rfl

theorem sumLotQty_cons (a : Lot) (l : List Lot) :
    sumLotQty (a :: l) = a.qty + sumLotQty l := by
  simp [sumLotQty]

theorem sumLotCost_cons (a : Lot) (l : List Lot) :
    sumLotCost (a :: l) = a.qty * a.unitCost + sumLotCost l := by
  simp [sumLotCost]

theorem sumLotQty_append (l1 l2 : List Lot) :
    sumLotQty (l1 ++ l2) = sumLotQty l1 + sumLotQty l2 := by
  simp [sumLotQty]

theorem sumLotQty_nonneg {q : List Lot} (hq : ∀ l ∈ q, 0 ≤ l.qty) :
    0 ≤ sumLotQty q := by
  have hx : ∀ x ∈ q.map (fun l => l.qty), 0 ≤ x := by
    intro x hx
    rcases List.mem_map.mp hx with ⟨l, hl, rfl⟩
    exact hq l hl
  exact List.sum_nonneg hx

theorem consumeLots_cost (q : List Lot) (r : Rat) :
    (consumeLots q r).2.1 = sumLotCost q - sumLotCost (consumeLots q r).1 := by
  induction q generalizing r with
  | nil => simp [consumeLots]
  | cons lot rest ih =>
    by_cases h : r ≤ 0
    · simp [consumeLots, h]
    · by_cases h2 : lot.qty - min lot.qty r = 0
      · have hmin : min lot.qty r = lot.qty := by
          have hz := sub_eq_zero.mp h2
          linarith
        simp only [consumeLots, if_neg h, if_pos h2]
        rw [ih]
        rw [sumLotCost_cons, hmin]
        ring
      · simp only [consumeLots, if_neg h, if_neg h2]
        rw [sumLotCost_cons, sumLotCost_cons]
        ring

theorem consumeLots_qty (q : List Lot) (r : Rat) :
    r - (consumeLots q r).2.2 = sumLotQty q - sumLotQty (consumeLots q r).1 := by
  induction q generalizing r with
  | nil => simp [consumeLots]
  | cons lot rest ih =>
    by_cases h : r ≤ 0
    · simp [consumeLots, h]
    · by_cases h2 : lot.qty - min lot.qty r = 0
      · have hmin : min lot.qty r = lot.qty := by
          have hz := sub_eq_zero.mp h2
          linarith
        simp only [consumeLots, if_neg h, if_pos h2]
        have hrec := ih (r - min lot.qty r)
        rw [sumLotQty_cons, hmin]
        rw [hmin] at hrec
        linarith
      · simp only [consumeLots, if_neg h, if_neg h2]
        rw [sumLotQty_cons, sumLotQty_cons]
        ring

theorem consumeLots_nonneg {q : List Lot} (hq : ∀ l ∈ q, 0 ≤ l.qty) (r : Rat) :
    ∀ l ∈ (consumeLots q r).1, 0 ≤ l.qty := by
  induction q generalizing r with
  | nil => simp [consumeLots]
  | cons lot rest ih =>
    have hlot := hq lot (by simp)
    have hrest : ∀ l ∈ rest, 0 ≤ l.qty := fun l hl => hq l (by simp [hl])
    by_cases h : r ≤ 0
    · simp only [consumeLots, if_pos h]
      exact hq
    · by_cases h2 : lot.qty - min lot.qty r = 0
      · simp only [consumeLots, if_neg h, if_pos h2]
        exact ih hrest _
      · simp only [consumeLots, if_neg h, if_neg h2]
        intro l hl
        rcases List.mem_cons.mp hl with rfl | hl'
        · have hm : min lot.qty r ≤ lot.qty := min_le_left _ _
          simp only []
          exact sub_nonneg.mpr hm
        · exact hrest l hl'

theorem consumeLots_leftover {q : List Lot} (hq : ∀ l ∈ q, 0 ≤ l.qty)
    {r : Rat} (hr : 0 ≤ r) :
    (consumeLots q r).2.2 = max (r - sumLotQty q) 0 := by
  induction q generalizing r with
  | nil =>
    simp only [consumeLots, sumLotQty_nil, sub_zero]
    exact (max_eq_left hr).symm
  | cons lot rest ih =>
    have hlot := hq lot (by simp)
    have hrest : ∀ l ∈ rest, 0 ≤ l.qty := fun l hl => hq l (by simp [hl])
    have hsum : 0 ≤ sumLotQty rest := sumLotQty_nonneg hrest
    by_cases h : r ≤ 0
    · have hr0 : r = 0 := le_antisymm h hr
      subst hr0
      simp only [consumeLots, le_refl, if_pos]
      rw [sumLotQty_cons]
      exact (max_eq_right (by linarith)).symm
    · by_cases h2 : lot.qty - min lot.qty r = 0
      · have hmin : min lot.qty r = lot.qty := by
          have hz := sub_eq_zero.mp h2
          linarith
        have hle : lot.qty ≤ r := hmin ▸ min_le_right lot.qty r
        simp only [consumeLots, if_neg h, if_pos h2]
        rw [ih hrest (by rw [hmin]; linarith)]
        rw [sumLotQty_cons, hmin]
        congr 1
        ring
      · have hmin : min lot.qty r = r := by
          rcases min_cases lot.qty r with ⟨he, _⟩ | ⟨he, _⟩
          · exact absurd (by rw [he, sub_self]) h2
          · exact he
        have hle : r ≤ lot.qty := by
          have hm := min_le_left lot.qty r
          rwa [hmin] at hm
        have h2r : ¬lot.qty - r = 0 := by rwa [hmin] at h2
        simp only [consumeLots, if_neg h, hmin, if_neg h2r]
        rw [sumLotQty_cons, sub_self]
        have hgoal : r - (lot.qty + sumLotQty rest) ≤ 0 := by linarith
        exact (max_eq_right hgoal).symm

theorem consumeLots_sumQty {q : List Lot} (hq : ∀ l ∈ q, 0 ≤ l.qty)
    {r : Rat} (hr : 0 ≤ r) :
    sumLotQty (consumeLots q r).1 = sumLotQty q - min r (sumLotQty q) := by
  have h1 := consumeLots_qty q r
  have h2 := consumeLots_leftover hq hr
  rcases max_cases (r - sumLotQty q) 0 with ⟨he, hge⟩ | ⟨he, hlt⟩
  · rw [he] at h2
    have hm : min r (sumLotQty q) = sumLotQty q := min_eq_right (by linarith)
    rw [hm]
    linarith
  · rw [he] at h2
    have hm : min r (sumLotQty q) = r := min_eq_left (by linarith)
    rw [hm]
    linarith

theorem fifoInv_init : FifoInv FifoState.init := by
  constructor
  · intro l hl
    simp [FifoState.init] at hl
  · rfl

theorem fifoStep_inv {s : FifoState} (hs : FifoInv s) (t : RawTxn) :
    FifoInv (fifoStep s t) := by
  rcases hs with ⟨hq, ha⟩
  by_cases h0 : t.qty = 0
  · simpa [fifoStep, h0] using ⟨hq, ha⟩
  · rcases hc : classifyFifo t.tranType t.qty with hb | hsell | hskip
    · simp only [fifoStep, if_neg h0, hc]
      constructor
      · intro l hl
        rcases List.mem_append.mp hl with hl' | hl'
        · exact hq l hl'
        · simp at hl'
          subst hl'
          exact abs_nonneg _
      · rw [sumLotQty_append, sumLotQty_cons, sumLotQty_nil, ha]
        ring
    · have hr : (0:Rat) ≤ min |t.qty| s.availableQty := by
        rw [ha]
        exact le_min (abs_nonneg _) (sumLotQty_nonneg hq)
      have hrle : min |t.qty| s.availableQty ≤ sumLotQty s.buyQueue := by
        rw [← ha]
        exact min_le_right _ _
      simp only [fifoStep, if_neg h0, hc]
      constructor
      · exact consumeLots_nonneg hq _
      · have hqy := consumeLots_qty s.buyQueue (min |t.qty| s.availableQty)
        dsimp only
        linarith
    · simp only [fifoStep, if_neg h0, hc]
      exact ⟨hq, ha⟩

theorem fifoFold_inv (txns : List RawTxn) {s : FifoState} (hs : FifoInv s) :
    FifoInv (txns.foldl fifoStep s) := by
  induction txns generalizing s with
  | nil => simpa using hs
  | cons t ts ih => exact ih (fifoStep_inv hs t)

theorem fifoRun_inv (txns : List RawTxn) : FifoInv (fifoRun txns) :=
  fifoFold_inv _ fifoInv_init

theorem sumStCost_cons (a : StreamLot) (l : List StreamLot) :
    sumStCost (a :: l) = a.quantity * a.buyPrice + sumStCost l := by
  simp [sumStCost]

theorem streamConsume_cost (q : List StreamLot) (r : Rat) :
    (streamConsume q r).2 = sumStCost q - sumStCost (streamConsume q r).1 := by
  induction q generalizing r with
  | nil => simp [streamConsume]
  | cons lot rest ih =>
    by_cases h : r ≤ 0
    · simp [streamConsume, h]
    · by_cases h2 : lot.quantity ≤ r
      · simp only [streamConsume, if_neg h, if_pos h2]
        rw [ih]
        rw [sumStCost_cons]
        ring
      · simp only [streamConsume, if_neg h, if_neg h2]
        rw [sumStCost_cons, sumStCost_cons]
        ring

theorem sumSQty_append (l1 l2 : List SumLot) :
    sumSQty (l1 ++ l2) = sumSQty l1 + sumSQty l2 := by
  simp [sumSQty]

theorem sumSQty_nonneg {q : List SumLot} (hq : ∀ l ∈ q, 0 ≤ l.qty) :
    0 ≤ sumSQty q := by
  have hx : ∀ x ∈ q.map (fun l => l.qty), 0 ≤ x := by
    intro x hx
    rcases List.mem_map.mp hx with ⟨l, hl, rfl⟩
    exact hq l hl
  exact List.sum_nonneg hx

theorem summaryConsume_nonneg {q : List SumLot} (hq : ∀ l ∈ q, 0 ≤ l.qty) (r : Rat) :
    ∀ l ∈ summaryConsume q r, 0 ≤ l.qty := by
  induction q generalizing r with
  | nil => simp [summaryConsume]
  | cons lot rest ih =>
    have hlot := hq lot (by simp)
    have hrest : ∀ l ∈ rest, 0 ≤ l.qty := fun l hl => hq l (by simp [hl])
    by_cases h : r ≤ 0
    · simp only [summaryConsume, if_pos h]
      exact hq
    · by_cases h2 : lot.qty ≤ r
      · simp only [summaryConsume, if_neg h, if_pos h2]
        exact ih hrest _
      · simp only [summaryConsume, if_neg h, if_neg h2]
        intro l hl
        rcases List.mem_cons.mp hl with rfl | hl'
        · dsimp only
          linarith
        · exact hrest l hl'

theorem summaryStep_nonneg {q : List SumLot} (hq : ∀ l ∈ q, 0 ≤ l.qty)
    (e : CombinedEvent) : ∀ l ∈ summaryStep q e, 0 ≤ l.qty := by
  unfold summaryStep
  by_cases h0 : |e.qty| = 0
  · simp only [if_pos h0]
    exact hq
  · simp only [if_neg h0]
    by_cases hb : summaryIsBuyType e.tranType && !(jsStrEq e.tranType "BONUS" || e.isBonus)
    · simp only [if_pos hb]
      intro l hl
      rcases List.mem_append.mp hl with hl' | hl'
      · exact hq l hl'
      · simp at hl'
        subst hl'
        exact abs_nonneg _
    · simp only [if_neg hb]
      by_cases hbn : (jsStrEq e.tranType "BONUS" || e.isBonus : Bool)
      · simp only [if_pos hbn]
        by_cases hpos : |e.qty| > 0
        · simp only [if_pos hpos]
          intro l hl
          rcases List.mem_append.mp hl with hl' | hl'
          · exact hq l hl'
          · simp at hl'
            subst hl'
            exact abs_nonneg _
        · simp only [if_neg hpos]
          exact hq
      · simp only [if_neg hbn]
        by_cases hs : summaryIsSellType e.tranType
        · simp only [if_pos hs]
          exact summaryConsume_nonneg hq _
        · simp only [if_neg hs]
          exact hq

theorem summaryFold_nonneg (events : List CombinedEvent) {q : List SumLot}
    (hq : ∀ l ∈ q, 0 ≤ l.qty) :
    ∀ l ∈ events.foldl summaryStep q, 0 ≤ l.qty := by
  induction events generalizing q with
  | nil => simpa using hq
  | cons e es ih => exact ih (summaryStep_nonneg hq e)

theorem jsInsert_subset {le : α → α → Bool} {x : α} {l : List α} {a : α}
    (h : a ∈ jsInsert le x l) : a = x ∨ a ∈ l := by
  induction l with
  | nil =>
    simp [jsInsert] at h
    exact Or.inl h
  | cons y ys ih =>
    by_cases hle : le y x
    · rw [jsInsert, if_pos hle] at h
      rcases List.mem_cons.mp h with rfl | h'
      · exact Or.inr (by simp)
      · rcases ih h' with h1 | h1
        · exact Or.inl h1
        · exact Or.inr (by simp [h1])
    · rw [jsInsert, if_neg hle] at h
      rcases List.mem_cons.mp h with rfl | h'
      · exact Or.inl rfl
      · exact Or.inr h'

theorem jsInsert_pairwise {le : α → α → Bool}
    (total : ∀ a b, le a b || le b a)
    (htrans : ∀ a b c, le a b = true → le b c = true → le a c = true)
    {l : List α} (hl : l.Pairwise (fun a b => le a b = true)) (x : α) :
    (jsInsert le x l).Pairwise (fun a b => le a b = true) := by
  induction l with
  | nil => simp [jsInsert]
  | cons y ys ih =>
    rcases List.pairwise_cons.mp hl with ⟨hy, hys⟩
    by_cases hle : le y x
    · rw [jsInsert, if_pos hle]
      refine List.pairwise_cons.mpr ⟨?_, ih hys⟩
      intro z hz
      rcases jsInsert_subset hz with rfl | hz'
      · exact hle
      · exact hy z hz'
    · rw [jsInsert, if_neg hle]
      have hxy : le x y = true := by
        rcases (Bool.or_eq_true _ _).mp (total x y) with h | h
        · exact h
        · exact absurd h hle
      refine List.pairwise_cons.mpr ⟨?_, hl⟩
      intro z hz
      rcases List.mem_cons.mp hz with rfl | hz'
      · exact hxy
      · exact htrans x y z hxy (hy z hz')

theorem jsSort_pairwise {le : α → α → Bool}
    (total : ∀ a b, le a b || le b a)
    (htrans : ∀ a b c, le a b = true → le b c = true → le a c = true)
    (l : List α) :
    (jsSort le l).Pairwise (fun a b => le a b = true) := by
  suffices h : ∀ (l acc : List α), acc.Pairwise (fun a b => le a b = true) →
      (l.foldl (fun acc x => jsInsert le x acc) acc).Pairwise (fun a b => le a b = true) by
    exact h l [] (by simp)
  intro l
  induction l with
  | nil =>
    intro acc h
    simpa using h
  | cons x xs ih =>
    intro acc h
    exact ih _ (jsInsert_pairwise total htrans h x)

theorem streamLe_total (a b : StreamEvent) : streamLe a b || streamLe b a := by
  simp only [streamLe, Bool.or_eq_true, Bool.and_eq_true, decide_eq_true_eq]
  rcases lt_trichotomy (streamEventDate a) (streamEventDate b) with h | h | h
  · exact Or.inl (Or.inl h)
  · rcases Nat.le_total (streamRank a) (streamRank b) with h2 | h2
    · exact Or.inl (Or.inr ⟨h, h2⟩)
    · exact Or.inr (Or.inr ⟨h.symm, h2⟩)
  · exact Or.inr (Or.inl h)

theorem streamLe_trans (a b c : StreamEvent)
    (h1 : streamLe a b = true) (h2 : streamLe b c = true) : streamLe a c = true := by
  simp only [streamLe, Bool.or_eq_true, Bool.and_eq_true, decide_eq_true_eq] at h1 h2 ⊢
  rcases h1 with h1 | h1 <;> rcases h2 with h2 | h2
  · exact Or.inl (h1.trans h2)
  · exact Or.inl (h2.1 ▸ h1)
  · exact Or.inl (h1.1 ▸ h2)
  · exact Or.inr ⟨h1.1.trans h2.1, h1.2.trans h2.2⟩

theorem streamMerge_sorted (txns : List RawTxn) (bonuses : List RawBonus) :
    (streamMerge txns bonuses).Pairwise (fun a b => streamLe a b = true) :=
  jsSort_pairwise streamLe_total streamLe_trans _

theorem streamLe_date {a b : StreamEvent} (h : streamLe a b = true) :
    streamEventDate a ≤ streamEventDate b := by
  simp only [streamLe, Bool.or_eq_true, Bool.and_eq_true, decide_eq_true_eq] at h
  rcases h with h | h
  · exact le_of_lt h
  · exact le_of_eq h.1

theorem streamLe_rank {a b : StreamEvent} (h : streamLe a b = true)
    (hd : streamEventDate a = streamEventDate b) :
    streamRank a ≤ streamRank b := by
  simp only [streamLe, Bool.or_eq_true, Bool.and_eq_true, decide_eq_true_eq] at h
  rcases h with h | h
  · exact absurd hd (ne_of_lt h)
  · exact h.2

/-- C10: the bonus-index ClientId admission of `getHoldingsSummary`: a
missing, null, or non-numeric ClientId field matches every requested
client; a numeric ClientId admits the record exactly when it equals the
requested client id. -/
theorem bonus_client_match_semantics :
    (∀ c : Rat, bonusClientAccepted .missing c = true) ∧
    (∀ c : Rat, bonusClientAccepted .nullv c = true) ∧
    (∀ c : Rat, bonusClientAccepted (.str none) c = true) ∧
    (∀ c r : Rat, (bonusClientAccepted (.str (some r)) c = true ↔ r = c)) ∧
    (∀ c n : Rat, (bonusClientAccepted (.num n) c = true ↔ n = c)) := by
  refine ⟨fun c => rfl, fun c => rfl, fun c => rfl, fun c r => ?_, fun c n => ?_⟩
  · simp [bonusClientAccepted]
  · simp [bonusClientAccepted]

/-- C4 (amended): at the stream site, Dividend wins over Buy
(`isBuyTransaction` excludes dividends) and `SQB`/`OPI` classify as Buy;
at the summary site dividends are dropped before classification and `SQB`
is a buy type; but `isSellTransaction` has no dividend exclusion (a code
starting with `S` that contains `DIVIDEND` still classifies Sell), and the
weighted-average-cost report (`fifoProcess`) classifies by first letter
only with a quantity-sign fallback, so `SQB` is Sell there and `DIO`
follows the quantity sign. -/
theorem classification_precedence_amended :
    (∀ s : String, isDividendType (jsNorm s) = true → isBuyTransaction s = false) ∧
    isBuyTransaction "SQB" = true ∧
    isBuyTransaction "OPI" = true ∧
    isBuyTransaction "DIO" = false ∧
    isSellTransaction "DIO" = false ∧
    summaryIsBuyType "SQB" = true ∧
    (∀ t : RawTxn, isDividendType (jsNorm t.tranType) = true →
      normalizeTxnForSummary? t = none) ∧
    (∀ q : Rat, classifyFifo "SQB" q = .sell) ∧
    classifyFifo "DIO" 5 = .buy ∧
    classifyFifo "DIO" (-5) = .sell ∧
    isSellTransaction "STOCK DIVIDEND" = true := by
  refine ⟨?_, by decide, by decide, by decide, by decide, by decide, ?_, ?_, by decide,
    by decide, by decide⟩
  · intro s h
    by_cases hs : s = ""
    · simp [isBuyTransaction, hs]
    · simp [isBuyTransaction, hs, h]
  · intro t h
    simp [normalizeTxnForSummary?, h]
  · intro q
    rfl

/-- Witness for `classification_precedence_amended`: the hypothesis-bearing
conjuncts applied at `"DIO"` (a dividend code) and at a dividend-typed
transaction row. -/
theorem classification_precedence_witness :
    isBuyTransaction "DIO" = false ∧
    normalizeTxnForSummary? (RawTxn.mk "DIO" 5 50 0 0 none 1) = none :=
  ⟨classification_precedence_amended.1 "DIO" (by decide),
   classification_precedence_amended.2.2.2.2.2.2.1 (RawTxn.mk "DIO" 5 50 0 0 none 1) (by decide)⟩

/-- C4 counterexample: in the weighted-average-cost report (which computes
through `fifoProcess`), the code `SQB` classifies as Sell, not Buy as the
claim states. -/
theorem sqb_is_sell_in_wac_report :
    classifyFifo "SQB" 10 = FifoClass.sell ∧ ¬ classifyFifo "SQB" 10 = FifoClass.buy := by
  decide

/-- C9 (amended): at the stream and summary call sites an event whose type
code is recognized by no classifier is inert - it never changes the
tracked state, whatever the sign of its quantity - and a zero-quantity row
is inert in `fifoProcess`; but in `fifoProcess` an unrecognized code with
nonzero quantity falls back to the quantity sign: positive means Buy,
negative means Sell, and the lot queue is mutated. -/
theorem unknown_type_inert_amended :
    (∀ (s : StreamState) (t : RawTxn), isBuyTransaction t.tranType = false →
      isSellTransaction t.tranType = false → (streamStepTxn s t).1 = s) ∧
    (∀ (q : List SumLot) (e : CombinedEvent), summaryIsBuyType e.tranType = false →
      summaryIsSellType e.tranType = false →
      (jsStrEq e.tranType "BONUS" || e.isBonus) = false → summaryStep q e = q) ∧
    (∀ (ty : String) (q : Rat), jsStartsWith (jsNorm ty) "B" = false →
      jsStartsWith (jsNorm ty) "S" = false → 0 < q → classifyFifo ty q = .buy) ∧
    (∀ (ty : String) (q : Rat), jsStartsWith (jsNorm ty) "B" = false →
      jsStartsWith (jsNorm ty) "S" = false → q < 0 → classifyFifo ty q = .sell) ∧
    (∀ (s : FifoState) (t : RawTxn), t.qty = 0 → fifoStep s t = s) := by
  refine ⟨?_, ?_, ?_, ?_, ?_⟩
  · intro s t h1 h2
    simp [streamStepTxn, h1, h2]
  · intro q e h1 h2 h3
    unfold summaryStep
    by_cases h0 : |e.qty| = 0
    · simp [h0]
    · simp [h0, h1, h2, h3]
  · intro ty q h1 h2 h3
    have hn : ¬ q < 0 := by linarith
    simp [classifyFifo, h1, h2, hn, h3]
  · intro ty q h1 h2 h3
    simp [classifyFifo, h1, h2, h3]
  · intro s t h
    simp [fifoStep, h]

/-- Witness for `unknown_type_inert_amended`: applied at a concrete state
and the unrecognized code `XYZ`. -/
theorem unknown_type_inert_witness :
    (streamStepTxn StreamState.init exXYZ).1 = StreamState.init ∧
    classifyFifo "XYZ" 5 = .buy :=
  ⟨unknown_type_inert_amended.1 StreamState.init exXYZ (by decide) (by decide),
   unknown_type_inert_amended.2.2.1 "XYZ" 5 (by decide) (by decide) (by norm_num)⟩

/-- C9 counterexample: in `fifoProcess` (the cited lines), the unrecognized
code `XYZ` with positive quantity is treated as a Buy: it appends a lot
and the final holding is 5, not the unchanged 0 the claim requires. -/
theorem unknown_type_mutates_fifo :
    (fifoProcess [exXYZ]).holdingQty = 5 ∧ ¬ (fifoProcess [exXYZ]).holdingQty = 0 := by
  norm_num +decide [fifoProcess, fifoRun, jsSort, jsInsert, txnLe, jsDateKey, fifoStep,
    classifyFifo, jsNorm, jsToUpper, jsTrim, jsStartsWith, consumeLots, sumLotQty, sumLotCost,
    FifoState.init, exXYZ]

/-- C6 (amended): the stream-mode chain uses the net rate whenever it is
nonzero (JS truthiness, not strict positivity), else the rate whenever
nonzero, else `|netAmount| / qty` when the quantity is positive and the
net amount nonzero, else 0; the summary chain uses the net rate only when
strictly positive but then falls back to the rate whatever its sign, so a
negative net rate (stream) or negative rate yields a negative price.
Bonus events are forced to price 0 in both ledgers. -/
theorem resolve_price_chain_amended :
    (∀ t : RawTxn, t.netrate ≠ 0 → resolvePriceStream t = t.netrate) ∧
    (∀ t : RawTxn, t.netrate = 0 → t.rate ≠ 0 → resolvePriceStream t = t.rate) ∧
    (∀ t : RawTxn, t.netrate = 0 → t.rate = 0 → 0 < |t.qty| → t.netAmount ≠ 0 →
      resolvePriceStream t = |t.netAmount| / |t.qty|) ∧
    (∀ t : RawTxn, t.netrate = 0 → t.rate = 0 → t.netAmount = 0 →
      resolvePriceStream t = 0) ∧
    (∀ netrate rate netAmount qty : Rat, 0 < netrate →
      resolvePriceSummary netrate rate netAmount qty = netrate) ∧
    (∀ netrate rate netAmount qty : Rat, ¬ 0 < netrate → rate ≠ 0 →
      resolvePriceSummary netrate rate netAmount qty = rate) ∧
    (∀ (s : StreamState) (b : RawBonus), 0 < bonusReceived b →
      (streamStepBonus s b).1.buyQueue = s.buyQueue ++ [⟨bonusReceived b, 0⟩]) ∧
    (∀ (q : List SumLot) (e : CombinedEvent),
      (jsStrEq e.tranType "BONUS" || e.isBonus) = true → e.qty ≠ 0 →
      summaryStep q e = q ++ [⟨|e.qty|, 0⟩]) := by
  refine ⟨?_, ?_, ?_, ?_, ?_, ?_, ?_, ?_⟩
  · intro t h
    simp [resolvePriceStream, h]
  · intro t h1 h2
    simp [resolvePriceStream, h1, h2]
  · intro t h1 h2 h3 h4
    simp [resolvePriceStream, h1, h2, h3, h4]
  · intro t h1 h2 h3
    simp [resolvePriceStream, h1, h2, h3]
  · intro netrate rate netAmount qty h
    have hne : netrate ≠ 0 := ne_of_gt h
    simp [resolvePriceSummary, h, hne]
  · intro netrate rate netAmount qty h1 h2
    simp [resolvePriceSummary, h1, h2]
  · intro s b h
    simp [streamStepBonus, h]
  · intro q e h1 h2
    have habs : ¬ |e.qty| = 0 := by simpa using h2
    have hpos : 0 < |e.qty| := lt_of_le_of_ne (abs_nonneg _) (Ne.symm habs)
    unfold summaryStep
    simp [habs, h1, hpos]

/-- Witness for `resolve_price_chain_amended`: the chain applied to the
concrete rows `exSell50` (nonzero net rate), `exNegNet` and
`exBuyZeroPrice`, and the bonus branches at concrete inputs. -/
theorem resolve_price_chain_witness :
    resolvePriceStream exSell50 = exSell50.netrate ∧
    resolvePriceStream exBuyZeroPrice = 0 ∧
    (streamStepBonus StreamState.init bnSame).1.buyQueue =
      StreamState.init.buyQueue ++ [⟨bonusReceived bnSame, 0⟩] :=
  ⟨resolve_price_chain_amended.1 exSell50 (by norm_num [exSell50]),
   resolve_price_chain_amended.2.2.2.1 exBuyZeroPrice (by norm_num [exBuyZeroPrice])
     (by norm_num [exBuyZeroPrice]) (by norm_num [exBuyZeroPrice]),
   resolve_price_chain_amended.2.2.2.2.2.2.1 StreamState.init bnSame
     (by norm_num [bonusReceived, bnSame])⟩

/-- C6 counterexample: for a row with net rate -5 and rate 7 the stream
chain returns -5 (negative, and not the strictly-positive-rate fallback 7
that the claim describes). -/
theorem negative_netrate_price :
    resolvePriceStream exNegNet = -5 ∧ exNegNet.rate = 7 ∧ resolvePriceStream exNegNet < 0 := by
  refine ⟨?_, rfl, ?_⟩ <;> norm_num [resolvePriceStream, exNegNet]

/-- C5 (amended): a Buy with nonzero quantity appends a lot
`{qty, price}` to the back of the queue and increases the tracked holding
by that quantity in `fifoProcess` and in the summary ledger - including
zero-price buys; in the stream ledger the buy branch additionally requires
a strictly positive resolved price, and a zero-price buy leaves both the
queue and `currentHoldings` unchanged. -/
theorem buy_appends_lot_amended :
    (∀ (q : List SumLot) (e : CombinedEvent), summaryIsBuyType e.tranType = true →
      (jsStrEq e.tranType "BONUS" || e.isBonus) = false → e.qty ≠ 0 →
      summaryStep q e =
        q ++ [⟨|e.qty|, resolvePriceSummary e.netrate e.rate e.netAmount |e.qty|⟩] ∧
      sumSQty (summaryStep q e) = sumSQty q + |e.qty|) ∧
    (∀ (s : FifoState) (t : RawTxn), t.qty ≠ 0 → classifyFifo t.tranType t.qty = .buy →
      (fifoStep s t).buyQueue =
        s.buyQueue ++ [⟨|t.qty|, if |t.qty| ≠ 0 then |t.netAmount| / |t.qty| else 0⟩] ∧
      sumLotQty (fifoStep s t).buyQueue = sumLotQty s.buyQueue + |t.qty|) ∧
    (∀ (s : StreamState) (t : RawTxn), isBuyTransaction t.tranType = true →
      0 < |t.qty| → 0 < resolvePriceStream t →
      (streamStepTxn s t).1.buyQueue = s.buyQueue ++ [⟨|t.qty|, resolvePriceStream t⟩] ∧
      (streamStepTxn s t).1.currentHoldings = s.currentHoldings + |t.qty|) ∧
    (∀ (s : StreamState) (t : RawTxn), isBuyTransaction t.tranType = true →
      ¬ (0 < |t.qty| ∧ 0 < resolvePriceStream t) → (streamStepTxn s t).1 = s) := by
  refine ⟨?_, ?_, ?_, ?_⟩
  · intro q e h1 h2 h3
    have habs : ¬ |e.qty| = 0 := by simpa using h3
    unfold summaryStep
    constructor
    · simp [habs, h1, h2]
    · simp [habs, h1, h2, sumSQty_append, sumSQty]
  · intro s t h0 hc
    have hb : (fifoStep s t).buyQueue =
        s.buyQueue ++ [⟨|t.qty|, if |t.qty| ≠ 0 then |t.netAmount| / |t.qty| else 0⟩] := by
      simp [fifoStep, h0, hc]
    refine ⟨hb, ?_⟩
    rw [hb, sumLotQty_append]
    simp [sumLotQty]
  · intro s t h1 h2 h3
    constructor
    · simp [streamStepTxn, h1, h2, h3]
    · simp [streamStepTxn, h1, h2, h3]
  · intro s t h1 h2
    have h2a : ¬(¬t.qty = 0 ∧ 0 < resolvePriceStream t) := by
      intro hcon
      exact h2 ⟨abs_pos.mpr hcon.1, hcon.2⟩
    simp [streamStepTxn, h1, h2a]

/-- Witness for `buy_appends_lot_amended`: applied at the empty queues with
the concrete rows `cEv1` (summary), `exOverB` (fifo), `exB10` (stream,
positive price) and `exBuyZeroPrice` (stream, zero price). -/
theorem buy_appends_lot_witness :
    sumSQty (summaryStep [] cEv1) = sumSQty [] + |cEv1.qty| ∧
    sumLotQty (fifoStep FifoState.init exOverB).buyQueue
      = sumLotQty FifoState.init.buyQueue + |exOverB.qty| ∧
    (streamStepTxn StreamState.init exB10).1.currentHoldings
      = StreamState.init.currentHoldings + |exB10.qty| ∧
    (streamStepTxn StreamState.init exBuyZeroPrice).1 = StreamState.init :=
  ⟨(buy_appends_lot_amended.1 [] cEv1 (by decide) (by decide) (by norm_num [cEv1])).2,
   (buy_appends_lot_amended.2.1 FifoState.init exOverB (by norm_num [exOverB]) (by decide)).2,
   (buy_appends_lot_amended.2.2.1 StreamState.init exB10 (by decide)
      (by norm_num [exB10]) (by norm_num [resolvePriceStream, exB10])).2,
   buy_appends_lot_amended.2.2.2 StreamState.init exBuyZeroPrice (by decide)
      (by norm_num [resolvePriceStream, exBuyZeroPrice])⟩

/-- C5 counterexample: the stream ledger skips a Buy of 5 shares whose
resolved price is 0 - no lot is appended and the holding stays 0 instead
of increasing to 5 as the claim requires. -/
theorem zero_price_buy_skipped_in_stream :
    isBuyTransaction exBuyZeroPrice.tranType = true ∧
    exBuyZeroPrice.qty = 5 ∧
    (streamProcess [exBuyZeroPrice] []).1.buyQueue = [] ∧
    (streamProcess [exBuyZeroPrice] []).1.currentHoldings = 0 := by
  refine ⟨by decide, by norm_num [exBuyZeroPrice], ?_, ?_⟩ <;>
    norm_num +decide [streamProcess, streamRun, streamMerge, jsSort, jsInsert, streamLe,
      streamEventDate, streamRank, jsDateKey, txnLe, streamStep, streamStepTxn,
      resolvePriceStream, isBuyTransaction, isSellTransaction, isDividendType, jsStrEq,
      jsNorm, jsToUpper, jsTrim, jsStartsWith, jsIncludes, jsIncludesAux, streamAvgCostOf,
      sumStQty, sumStCost, StreamState.init, exBuyZeroPrice]

/-- C3: a Sell consumes `min(lot.qty, remaining)` from the front of the
queue, and the consumed cost is exactly the decrease of the queue's cost
(so quantity sold beyond the open lots adds zero cost); the full absolute
quantity and amount are still added to `sellQty`/`sellValue` on every
sell, the stream ledger's per-sale `profitLoss` is the gross sale value
minus the consumed cost, and the spec's FIFO and oversell examples
evaluate as stated. -/
theorem fifo_sell_front_consumption :
    (∀ (q : List Lot) (r : Rat),
      (consumeLots q r).2.1 = sumLotCost q - sumLotCost (consumeLots q r).1) ∧
    (∀ (q : List Lot) (r : Rat),
      r - (consumeLots q r).2.2 = sumLotQty q - sumLotQty (consumeLots q r).1) ∧
    (∀ (s : FifoState) (t : RawTxn), t.qty ≠ 0 →
      classifyFifo t.tranType t.qty = .sell →
      (fifoStep s t).sellQty = s.sellQty + |t.qty| ∧
      (fifoStep s t).sellValue = s.sellValue + |t.netAmount| ∧
      (fifoStep s t).sellCost =
        s.sellCost + (sumLotCost s.buyQueue - sumLotCost (fifoStep s t).buyQueue)) ∧
    (∀ (s : StreamState) (t : RawTxn), isBuyTransaction t.tranType = false →
      isSellTransaction t.tranType = true → 0 < |t.qty| → 0 < resolvePriceStream t →
      (streamStepTxn s t).2.profitLoss =
        some (|t.qty| * resolvePriceStream t -
          (sumStCost s.buyQueue - sumStCost (streamStepTxn s t).1.buyQueue))) ∧
    (fifoProcess [exFifoB1, exFifoB2, exFifoS]).profit = 560 ∧
    (fifoProcess [exFifoB1, exFifoB2, exFifoS]).holdingQty = 30 ∧
    (fifoProcess [exFifoB1, exFifoB2, exFifoS]).avgCost = 12 ∧
    (fifoProcess [exOverB, exOverS]).sellQty = 50 ∧
    (fifoProcess [exOverB, exOverS]).sellValue = 500 ∧
    (fifoProcess [exOverB, exOverS]).holdingQty = 0 ∧
    (fifoProcess [exOverB, exOverS]).profit = 200 := by
  refine ⟨consumeLots_cost, consumeLots_qty, ?_, ?_, ?_, ?_, ?_, ?_, ?_, ?_, ?_⟩
  · intro s t h0 hc
    refine ⟨?_, ?_, ?_⟩ <;> simp [fifoStep, h0, hc, consumeLots_cost]
  · intro s t h1 h2 h3 h4
    have hq : ¬ t.qty = 0 := by
      intro hcon
      rw [hcon] at h3
      simp at h3
    have hcost := streamConsume_cost s.buyQueue |t.qty|
    simp [streamStepTxn, h1, h2, hq, h4, hcost]
  all_goals
    norm_num +decide [fifoProcess, fifoRun, jsSort, jsInsert, txnLe, jsDateKey, fifoStep,
      classifyFifo, jsNorm, jsToUpper, jsTrim, jsStartsWith, consumeLots, sumLotQty,
      sumLotCost, FifoState.init, exFifoB1, exFifoB2, exFifoS, exOverB, exOverS]

/-- Witness for `fifo_sell_front_consumption`: the sell-step bookkeeping
applied at the initial state with the concrete oversell row `exOverS`, and
the stream per-sale profit at `exSell50`. -/
theorem fifo_sell_front_consumption_witness :
    (fifoStep FifoState.init exOverS).sellQty = FifoState.init.sellQty + |exOverS.qty| ∧
    (streamStepTxn StreamState.init exSell50).2.profitLoss =
      some (|exSell50.qty| * resolvePriceStream exSell50 -
        (sumStCost StreamState.init.buyQueue -
          sumStCost (streamStepTxn StreamState.init exSell50).1.buyQueue)) :=
  ⟨(fifo_sell_front_consumption.2.2.1 FifoState.init exOverS (by norm_num [exOverS])
      (by decide)).1,
   fifo_sell_front_consumption.2.2.2.1 StreamState.init exSell50 (by decide) (by decide)
     (by norm_num [exSell50]) (by norm_num [resolvePriceStream, exSell50])⟩

/-- C2 (amended): in `fifoProcess` and in the summary-mode lot queue the
holding quantity (the lot-queue total) is nonnegative after every
processed event, and a Sell removes exactly
`min(sell quantity, available quantity)` from it, clamping at 0 on an
oversell; but the stream ledger's running `currentHoldings` counter is
decremented by the full sell quantity and can go negative. -/
theorem holding_never_negative_amended :
    (∀ (txns : List RawTxn) (s : FifoState), FifoInv s →
      0 ≤ sumLotQty (txns.foldl fifoStep s).buyQueue) ∧
    (∀ txns : List RawTxn, 0 ≤ (fifoProcess txns).holdingQty) ∧
    (∀ (s : FifoState) (t : RawTxn), FifoInv s → t.qty ≠ 0 →
      classifyFifo t.tranType t.qty = .sell →
      sumLotQty (fifoStep s t).buyQueue =
        sumLotQty s.buyQueue - min |t.qty| (sumLotQty s.buyQueue)) ∧
    (∀ (events : List CombinedEvent) (q : List SumLot), (∀ l ∈ q, 0 ≤ l.qty) →
      0 ≤ sumSQty (events.foldl summaryStep q)) ∧
    (∀ (txns : List RawTxn) (bonuses : List RawBonus),
      0 ≤ summaryCurrentHolding txns bonuses) := by
  refine ⟨?_, ?_, ?_, ?_, ?_⟩
  · intro txns s hs
    exact sumLotQty_nonneg (fifoFold_inv txns hs).1
  · intro txns
    simpa [fifoProcess] using sumLotQty_nonneg (fifoRun_inv txns).1
  · intro s t hs h0 hc
    rcases hs with ⟨hq, ha⟩
    have hr : (0:Rat) ≤ min |t.qty| s.availableQty := by
      rw [ha]
      exact le_min (abs_nonneg _) (sumLotQty_nonneg hq)
    have hqueue : (fifoStep s t).buyQueue =
        (consumeLots s.buyQueue (min |t.qty| s.availableQty)).1 := by
      simp [fifoStep, h0, hc]
    rw [hqueue, consumeLots_sumQty hq hr, ha]
    rw [min_assoc]
    simp
  · intro events q hq
    exact sumSQty_nonneg (summaryFold_nonneg events hq)
  · intro txns bonuses
    have hnil : ∀ l ∈ ([] : List SumLot), 0 ≤ l.qty := by
      intro l hl
      simp at hl
    exact sumSQty_nonneg (summaryFold_nonneg _ hnil)

/-- Witness for `holding_never_negative_amended`: applied at the initial
state with the spec's concrete oversell sequence and at a concrete
summary event list. -/
theorem holding_never_negative_witness :
    0 ≤ sumLotQty ([exOverB, exOverS].foldl fifoStep FifoState.init).buyQueue ∧
    sumLotQty (fifoStep FifoState.init exOverS).buyQueue =
      sumLotQty FifoState.init.buyQueue -
        min |exOverS.qty| (sumLotQty FifoState.init.buyQueue) ∧
    0 ≤ sumSQty ([cEv1, cEv2].foldl summaryStep []) :=
  ⟨holding_never_negative_amended.1 [exOverB, exOverS] FifoState.init fifoInv_init,
   holding_never_negative_amended.2.2.1 FifoState.init exOverS fifoInv_init
     (by norm_num [exOverS]) (by decide),
   holding_never_negative_amended.2.2.2.1 [cEv1, cEv2] [] (by intro l hl; simp at hl)⟩

/-- C2 counterexample: in the stream ledger a Sell of 50 with no prior
holdings drives `currentHoldings` to -50, below the 0 the claim
guarantees. -/
theorem stream_holdings_go_negative :
    (streamProcess [exSell50] []).1.currentHoldings = -50 ∧
    ¬ 0 ≤ (streamProcess [exSell50] []).1.currentHoldings := by
  have h : (streamProcess [exSell50] []).1.currentHoldings = -50 := by
    norm_num +decide [streamProcess, streamRun, streamMerge, jsSort, jsInsert, streamLe,
      streamEventDate, streamRank, jsDateKey, txnLe, streamStep, streamStepTxn,
      resolvePriceStream, isBuyTransaction, isSellTransaction, isDividendType, jsStrEq,
      jsNorm, jsToUpper, jsTrim, jsStartsWith, jsIncludes, jsIncludesAux, streamConsume,
      streamAvgCostOf, sumStQty, sumStCost, StreamState.init, exSell50]
  refine ⟨h, ?_⟩
  rw [h]
  norm_num

/-- C7 (amended): the weighted average price is computed from the lot
queue alone (`costBasis / lot-queue total`), and `avgCostOfHoldings` is
the tracked holding times that price; in the frontend table the tracked
holding IS the lot-queue total, so there `avgCostOfHoldings = costBasis`
whenever the holding is positive, and the same identity holds in the
stream ledger exactly when `currentHoldings` agrees with the lot-queue
total (it is 0 when the tracked holding is not positive). -/
theorem wap_identity_amended :
    (∀ q : List SumLot, 0 < sumSQty q →
      frontendWap q = sumSCost q / sumSQty q ∧ frontendAvgCostOfHoldings q = sumSCost q) ∧
    (∀ s : StreamState, s.currentHoldings = sumStQty s.buyQueue → 0 < s.currentHoldings →
      streamAvgCostOf s.currentHoldings s.buyQueue = sumStCost s.buyQueue) ∧
    (∀ (ch : Rat) (q : List StreamLot), ¬ 0 < ch → streamAvgCostOf ch q = 0) := by
  refine ⟨?_, ?_, ?_⟩
  · intro q h
    constructor
    · simp [frontendWap, h]
    · unfold frontendAvgCostOfHoldings frontendWap
      rw [if_pos h, mul_comm, div_mul_cancel₀ _ (ne_of_gt h)]
  · intro s h hpos
    simp only [streamAvgCostOf]
    rw [if_pos hpos, ← h, if_pos hpos, mul_comm, div_mul_cancel₀ _ (ne_of_gt hpos)]
  · intro ch q h
    simp [streamAvgCostOf, h]

/-- Witness for `wap_identity_amended`: applied at a concrete lot queue
and at a concrete stream state whose counter matches its queue. -/
theorem wap_identity_witness :
    frontendAvgCostOfHoldings [⟨10, 5⟩] = sumSCost [⟨10, 5⟩] ∧
    streamAvgCostOf (StreamState.mk 10 [⟨10, 5⟩]).currentHoldings
        (StreamState.mk 10 [⟨10, 5⟩]).buyQueue =
      sumStCost (StreamState.mk 10 [⟨10, 5⟩]).buyQueue ∧
    streamAvgCostOf (-50) [] = 0 :=
  ⟨(wap_identity_amended.1 [⟨10, 5⟩] (by norm_num [sumSQty])).2,
   wap_identity_amended.2.1 (StreamState.mk 10 [⟨10, 5⟩]) (by norm_num [sumStQty])
     (by norm_num),
   wap_identity_amended.2.2 (-50) [] (by norm_num)⟩

/-- C7 counterexample: after Buy 10 @ 5 and a zero-price Sell of 4, the
stream ledger's `currentHoldings` is 6 (positive) while the lot queue is
untouched, so the emitted `averageCostOfHoldings` is 6 x 5 = 30, not the
cost basis 50 that the claim's identity `avgCostOfHoldings = costBasis`
requires, and the claimed `weightedAvgPrice = costBasis / holdingQty`
would be 50/6, not the 5 the code uses. -/
theorem avg_cost_of_holdings_diverges :
    (streamProcess [exB10, exS4zero] []).1.currentHoldings = 6 ∧
    sumStCost (streamProcess [exB10, exS4zero] []).1.buyQueue = 50 ∧
    streamAvgCostOf (streamProcess [exB10, exS4zero] []).1.currentHoldings
      (streamProcess [exB10, exS4zero] []).1.buyQueue = 30 ∧
    ¬ (30 : Rat) = 50 := by
  refine ⟨?_, ?_, ?_, by norm_num⟩ <;>
    norm_num +decide [streamProcess, streamRun, streamMerge, jsSort, jsInsert, streamLe,
      streamEventDate, streamRank, jsDateKey, txnLe, streamStep, streamStepTxn,
      resolvePriceStream, isBuyTransaction, isSellTransaction, isDividendType, jsStrEq,
      jsNorm, jsToUpper, jsTrim, jsStartsWith, jsIncludes, jsIncludesAux, streamConsume,
      streamAvgCostOf, sumStQty, sumStCost, StreamState.init, exB10, exS4zero]

/-- C8 (amended): the stream merge is sorted by effective date with
transactions ranked before bonuses on the same date; a bonus with a
missing/blank ex-date is assigned the 1900-01-01 sentinel (in both
ledgers) and sorts before every later-dated event; but in the summary
merge the kind rank is emulated by giving bonus events the synthetic
rowids 1000000+idx, so on equal dates a transaction precedes a bonus only
when its rowid is at most the bonus's synthetic rowid. -/
theorem merge_order_amended :
    (∀ (txns : List RawTxn) (bonuses : List RawBonus),
      (streamMerge txns bonuses).Pairwise
        (fun a b => streamEventDate a ≤ streamEventDate b)) ∧
    (∀ (txns : List RawTxn) (bonuses : List RawBonus),
      (streamMerge txns bonuses).Pairwise
        (fun a b => streamEventDate a = streamEventDate b → streamRank a ≤ streamRank b)) ∧
    (∀ b : RawBonus, b.exDate = none → streamEventDate (.bonus b) = date1900) ∧
    (∀ b : RawBonus, b.exDate = none → summaryBonusDate b = date1900) ∧
    (∀ (b : RawBonus) (e : StreamEvent), b.exDate = none →
      date1900 < streamEventDate e →
      streamLe (.bonus b) e = true ∧ streamLe e (.bonus b) = false) ∧
    (∀ a b : CombinedEvent, a.dateKey = b.dateKey →
      (combLe a b = true ↔ a.rowid ≤ b.rowid)) := by
  refine ⟨?_, ?_, ?_, ?_, ?_, ?_⟩
  · intro txns bonuses
    exact (streamMerge_sorted txns bonuses).imp fun h => streamLe_date h
  · intro txns bonuses
    exact (streamMerge_sorted txns bonuses).imp fun h hd => streamLe_rank h hd
  · intro b h
    simp [streamEventDate, h]
  · intro b h
    simp [summaryBonusDate, h]
  · intro b e h hd
    have hd' : streamEventDate (.bonus b) = date1900 := by simp [streamEventDate, h]
    have h1 : ¬ streamEventDate e < date1900 := not_lt_of_gt hd
    have h2 : ¬ streamEventDate e = date1900 := ne_of_gt hd
    constructor
    · simp [streamLe, hd', hd]
    · simp [streamLe, hd', h1, h2]
  · intro a b hd
    simp [combLe, hd]

/-- Witness for `merge_order_amended`: the pairwise ordering at a concrete
merge, the sentinel at a concrete dateless bonus, and the summary
comparator at two concrete same-date events. -/
theorem merge_order_witness :
    ((streamMerge [exB10] [bnSame]).Pairwise
      (fun a b => streamEventDate a = streamEventDate b → streamRank a ≤ streamRank b)) ∧
    streamEventDate (.bonus bnNoDate) = date1900 ∧
    (combLe cEv1 cEv2 = true ↔ cEv1.rowid ≤ cEv2.rowid) :=
  ⟨merge_order_amended.2.1 [exB10] [bnSame],
   merge_order_amended.2.2.1 bnNoDate rfl,
   merge_order_amended.2.2.2.2.2 cEv1 cEv2 rfl⟩

/-- C8 counterexample: in the summary merge a transaction with rowid
2000000 and a bonus on the same date sort as [bonus, transaction] - the
bonus comes first, contradicting the claimed transaction-before-bonus
ordering on equal dates. -/
theorem summary_bonus_sorts_before_txn :
    (jsSort combLe (summaryEvents [txBig] [bnSame])).map (fun e => e.isBonus)
      = [true, false] ∧
    (jsSort combLe (summaryEvents [txBig] [bnSame])).map (fun e => e.dateKey)
      = [100, 100] := by
  constructor <;>
    norm_num +decide [summaryEvents, normalizeTxnForSummary?, summaryBonusEvent,
      summaryBonusDate, isDividendType, jsStrEq, jsNorm, jsToUpper, jsTrim, jsStartsWith,
      jsIncludes, jsIncludesAux, jsSort, jsInsert, combLe, txnLe, jsDateKey, List.enum,
      List.enumFrom, List.filterMap_cons, txBig, bnSame]

/-- C1: the three call sites disagree on the same input - a Buy of 5
shares whose resolved price is 0 is counted by the aggregate summary
ledger and by `fifoProcess` (holding 5) but skipped by the snapshot-stream
ledger (holding 0), although the spec requires
`HoldingSummary.currentHolding` to equal the last stream snapshot's
holding for identical (account, security, asOfDate) inputs. -/
theorem cross_mode_divergence_eval :
    summaryCurrentHolding [exBuyZeroPrice] [] = 5 ∧
    (streamProcess [exBuyZeroPrice] []).1.currentHoldings = 0 ∧
    (streamProcess [exBuyZeroPrice] []).1.buyQueue = [] ∧
    (fifoProcess [exBuyZeroPrice]).holdingQty = 5 := by
  refine ⟨?_, ?_, ?_, ?_⟩ <;>
    norm_num +decide [summaryCurrentHolding, summaryRun, summaryEvents,
      normalizeTxnForSummary?, summaryBonusEvent, summaryBonusDate, summaryStep,
      summaryConsume, summaryIsBuyType, summaryIsSellType, resolvePriceSummary,
      isDividendType, jsStrEq, jsNorm, jsToUpper, jsTrim, jsStartsWith, jsIncludes,
      jsIncludesAux, jsSort, jsInsert, combLe, txnLe, jsDateKey, List.enum, List.enumFrom,
      sumSQty, streamProcess, streamRun, streamMerge, streamLe, streamEventDate, streamRank,
      streamStep, streamStepTxn, streamStepBonus, resolvePriceStream, isBuyTransaction,
      isSellTransaction, streamConsume, streamAvgCostOf, sumStQty, sumStCost,
      StreamState.init, fifoProcess, fifoRun, fifoStep, classifyFifo, consumeLots,
      sumLotQty, sumLotCost, FifoState.init, List.filterMap_cons, exBuyZeroPrice]

end StockApp
